import Mathlib

/-!
Verification of the theme-extraction core of the roots/vite-plugin repository
(`wordpressThemeJson` in the TypeScript sources).

Strings are modelled as `List Char`.  The JavaScript source is embedded
shallowly:

* `findThemeMatch` / `matchThemeAt` model the regex search
  `css.match(/@(?:layer\s+)?theme\s*\x7b/s)`, returning the match index and
  the match length.  The regex alternation is deterministic here (after `@`
  either `layer`‑then‑whitespace‑then `theme` or directly `theme` can match,
  and the greedy whitespace runs are followed by non‑whitespace mandatory
  characters), so a non‑backtracking parser is an exact model.
* `scanBlock` models the character scan of `extractThemeContent`
  (src/index.ts and the variant source file): the outer while loop together
  with its two inner loops (string literals and comments) becomes one
  recursion over the remaining input with an explicit mode
  (`ScanMode.normal` / `.inStr` / `.inCom`), threading the absolute
  position `pos` exactly as the JavaScript `position` variable is threaded
  (escape skips 2, a consumed quote or comment delimiter advances
  accordingly).  It returns the absolute position of the closing brace at
  which `braceCount` reaches 0, or `none` when the input is exhausted.
* `extractThemeContent` mirrors the full function including the falsy guard
  `if (!themeMatch?.index) return null` (which also fires when the match
  index is 0) and the `Unclosed ... block` error construction.

JavaScript whitespace (`\s`, and `String.prototype.trim`) is modelled by
`isWsJS`; `Char.toLower`/`Char.toUpper` model `toLowerCase`/`toUpperCase`
(exact on the ASCII inputs involved here).
-/

deriving instance DecidableEq for Except

/-!
The token classifier of `wordpressThemeJson.generateBundle` (the variant
source file, lines 793–925): `extractVariables` with the patterns
`--color-([^:]+):\s*([^;\x7d]+)[;\x7d]?`, `--font-...`, `--text-...`, and the
per-category filter/map pipelines `colorEntries`, `fontFamilyEntries`,
`fontSizeEntries`.

`matchVarAt` models one attempt of the pattern at a fixed position.  All the
regex pieces are deterministic except one: when the greedy `\s*` consumes up
to a `;`/`\x7d`/end-of-input boundary, the mandatory `[^;\x7d]+` backtracks
one whitespace character (whitespace belongs to the value class), making the
raw value that single whitespace character.  `extractVarsAux` models the
`exec` loop: on a failed attempt the search advances one position, on a
successful match it continues after the consumed text; the fuel argument
(list length) only discharges termination and never truncates the scan
(`extractVarsAux_fuel_irrel`).
-/

/-- Holds as `startsWithChars pre l` iff `pre` is an initial segment of `l`. -/
def startsWithChars : List Char → List Char → Bool
  | [], _ => true
  | _ :: _, [] => false
  | c :: cs, d :: ds => c = d && startsWithChars cs ds

/-- JavaScript whitespace class `\s` (also used by `String.prototype.trim`). -/
def isWsJS (c : Char) : Bool :=
  c = ' ' || c = '\t' || c = '\n' || c = '\r' || c = '\x0b' || c = '\x0c' ||
  c = '\u00A0' || c = '\u1680' ||
  (decide ('\u2000' ≤ c) && decide (c ≤ '\u200A')) ||
  c = '\u2028' || c = '\u2029' || c = '\u202F' || c = '\u205F' ||
  c = '\u3000' || c = '\uFEFF'

/-- JavaScript `String.prototype.trim`: strip leading and trailing whitespace. -/
def jsTrim (l : List Char) : List Char :=
  ((l.dropWhile isWsJS).reverse.dropWhile isWsJS).reverse

/-- JavaScript `String.prototype.substring(a, b)` (swapping the endpoints when
`a > b`, which never happens on the calls modelled here). -/
def jsSubstring (l : List Char) (a b : Nat) : List Char :=
  (l.take (max a b)).drop (min a b)

/-- Consume an exact literal: `dropLit lit l = some r` iff `l = lit ++ r`. -/
def dropLit : List Char → List Char → Option (List Char)
  | [], l => some l
  | _ :: _, [] => none
  | c :: cs, d :: ds => if c = d then dropLit cs ds else none

/-- Parser for the regex tail `theme\s*\x7b` (after the optional layer part):
the literal `theme`, then greedy whitespace, then `\x7b`.  Returns the rest of
the input after the opening brace. -/
def parseThemeTail (l : List Char) : Option (List Char) :=
  match dropLit ("theme".data) l with
  | none => none
  | some r =>
    match r.dropWhile isWsJS with
    | '{' :: r2 => some r2
    | _ => none

/-- Parser for the regex tail `layer\s+theme\s*\x7b`: the literal `layer`, at
least one whitespace character, then the `theme` tail. -/
def parseLayerTail (l : List Char) : Option (List Char) :=
  match dropLit ("layer".data) l with
  | none => none
  | some r =>
    match r with
    | c :: _ => if isWsJS c then parseThemeTail (r.dropWhile isWsJS) else none
    | [] => none

/-- Attempt of the regex `@(?:layer\s+)?theme\s*\x7b` at the head of `l`;
returns the length of the match.  The optional group is tried first, exactly
as the greedy `(?:...)?` does. -/
def matchThemeAt (l : List Char) : Option Nat :=
  match l with
  | '@' :: rest =>
    match parseLayerTail rest with
    | some r => some (l.length - r.length)
    | none =>
      match parseThemeTail rest with
      | some r => some (l.length - r.length)
      | none => none
  | _ => none

/-- Leftmost match of the theme-block-opening regex: returns the match index
and the match length, like `css.match(...)` returns `index` and `[0].length`. -/
def findThemeMatch : List Char → Option (Nat × Nat)
  | [] => none
  | c :: rest =>
    match matchThemeAt (c :: rest) with
    | some len => some (0, len)
    | none =>
      match findThemeMatch rest with
      | some (i, len) => some (i + 1, len)
      | none => none

/-- Scanner mode: outside any literal, inside a quoted string literal with the
given quote character, or inside a `/* ... */` comment.  The modes are the
three loops of the JavaScript scanner. -/
inductive ScanMode : Type where
  | normal : ScanMode
  | inStr : Char → ScanMode
  | inCom : ScanMode
deriving DecidableEq

/-- The character scan of `extractThemeContent`, started just after the
opening brace at absolute position `pos` with `braceCount = depth`.  Returns
the absolute position of the closing brace at which the count reaches 0, or
`none` when the input ends first (the unclosed-block case, in which the
JavaScript `position` may overstep the end after a trailing backslash; every
such path ends in `none` here). -/
def scanBlock : ScanMode → Int → Nat → List Char → Option Nat
  | _, _, _, [] => none
  | .normal, d, pos, '\\' :: _ :: rest => scanBlock .normal d (pos + 2) rest
  | .normal, _, _, ['\\'] => none
  | .normal, d, pos, '\'' :: rest => scanBlock (.inStr '\'') d (pos + 1) rest
  | .normal, d, pos, '"' :: rest => scanBlock (.inStr '"') d (pos + 1) rest
  | .normal, d, pos, '/' :: '*' :: rest => scanBlock .inCom d (pos + 2) rest
  | .normal, d, pos, c :: rest =>
    let d2 : Int := if c = '{' then d + 1 else if c = '}' then d - 1 else d
    if d2 = 0 then some pos else scanBlock .normal d2 (pos + 1) rest
  | .inStr q, d, pos, '\\' :: _ :: rest => scanBlock (.inStr q) d (pos + 2) rest
  | .inStr _, _, _, ['\\'] => none
  | .inStr q, d, pos, c :: rest =>
    if c = q then scanBlock .normal d (pos + 1) rest
    else scanBlock (.inStr q) d (pos + 1) rest
  | .inCom, d, pos, '*' :: '/' :: rest => scanBlock .normal d (pos + 2) rest
  | .inCom, d, pos, _ :: rest => scanBlock .inCom d (pos + 1) rest

/-- The `Unclosed ... block - missing closing brace` error message. -/
def unclosedMsg (blockType : List Char) : List Char :=
  ("Unclosed ".data) ++ blockType ++ (" block - missing closing brace".data)

/-- Shallow embedding of `extractThemeContent(css)`.  `.ok none` is the
JavaScript `null` return, `.ok (some content)` a successful extraction, and
`.error msg` a thrown `Error(msg)`.  Note the guard `if (!themeMatch?.index)
return null`, which returns `null` both when there is no match and when the
match index is 0. -/
def extractThemeContent (css : List Char) : Except (List Char) (Option (List Char)) :=
  match findThemeMatch css with
  | none => .ok none
  | some (i, len) =>
    if i = 0 then .ok none
    else
      match scanBlock .normal 1 (i + len) (css.drop (i + len)) with
      | some p => .ok (some (jsSubstring css (i + len) p))
      | none => .error (unclosedMsg (jsTrim (jsSubstring css i (i + len))))

/-- Specification-level definition of the matching closing brace, written
from the claim: starting just after the opening brace with depth 1, the
offset (relative to the start of the block content) of the closing brace
that brings the depth back to 0, where brace characters inside single- or
double-quoted string literals, inside `/* ... */` comments, or immediately
after a backslash do not affect the depth count.  `none` when the input ends
before the depth returns to 0. -/
def closeOffset : ScanMode → Nat → List Char → Option Nat
  | _, _, [] => none
  | .normal, d, '\\' :: _ :: rest => (· + 2) <$> closeOffset .normal d rest
  | .normal, _, ['\\'] => none
  | .normal, d, '\'' :: rest => (· + 1) <$> closeOffset (.inStr '\'') d rest
  | .normal, d, '"' :: rest => (· + 1) <$> closeOffset (.inStr '"') d rest
  | .normal, d, '/' :: '*' :: rest => (· + 2) <$> closeOffset .inCom d rest
  | .normal, d, c :: rest =>
    let d2 : Nat := if c = '{' then d + 1 else if c = '}' then d - 1 else d
    if d2 = 0 then some 0 else (· + 1) <$> closeOffset .normal d2 rest
  | .inStr q, d, '\\' :: _ :: rest => (· + 2) <$> closeOffset (.inStr q) d rest
  | .inStr _, _, ['\\'] => none
  | .inStr q, d, c :: rest =>
    if c = q then (· + 1) <$> closeOffset .normal d rest
    else (· + 1) <$> closeOffset (.inStr q) d rest
  | .inCom, d, '*' :: '/' :: rest => (· + 2) <$> closeOffset .normal d rest
  | .inCom, d, _ :: rest => (· + 1) <$> closeOffset .inCom d rest

/-- JavaScript `String.prototype.includes`: some position of `l` starts
with `sub`. -/
def containsChars (sub : List Char) : List Char → Bool
  | [] => startsWithChars sub []
  | l@(_ :: rest) => startsWithChars sub l || containsChars sub rest

/-- JavaScript `String.prototype.endsWith`. -/
def endsWithChars (suf l : List Char) : Bool :=
  startsWithChars suf.reverse l.reverse

/-- ASCII lower-casing, modelling `String.prototype.toLowerCase` on the ASCII
property suffixes involved. -/
def toLowerJS (l : List Char) : List Char :=
  l.map Char.toLower

/-- Capitalization: `name.charAt(0).toUpperCase() + name.slice(1)`. -/
def capitalizeJS : List Char → List Char
  | [] => []
  | c :: rest => c.toUpper :: rest

/-- JavaScript `String.prototype.split(sep)` for a single-character
separator. -/
def splitOnChar (sep : Char) : List Char → List (List Char)
  | [] => [[]]
  | c :: rest =>
    match splitOnChar sep rest with
    | [] => if c = sep then [[], []] else [[c]]
    | seg :: segs => if c = sep then [] :: seg :: segs else (c :: seg) :: segs

/-- Lookup in the `shadeLabels` record (`shade in config.shadeLabels`
followed by `config.shadeLabels[shade]`). -/
def lookupLabel : List (List Char × List Char) → List Char → Option (List Char)
  | [], _ => none
  | (k, v) :: rest, key => if k = key then some v else lookupLabel rest key

/-- Hexadecimal digit for `0x` number literals. -/
def isHexDigitJS (c : Char) : Bool :=
  c.isDigit || (decide ('a' ≤ c) && decide (c ≤ 'f')) || (decide ('A' ≤ c) && decide (c ≤ 'F'))

/-- Octal digit for `0o` number literals. -/
def isOctDigitJS (c : Char) : Bool :=
  decide ('0' ≤ c) && decide (c ≤ '7')

/-- Binary digit for `0b` number literals. -/
def isBinDigitJS (c : Char) : Bool :=
  c = '0' || c = '1'

/-- A `0x`/`0o`/`0b`-style literal with the given radix markers and digit
class. -/
def isRadixLit (m1 m2 : Char) (dig : Char → Bool) (l : List Char) : Bool :=
  match l with
  | '0' :: c :: r => (c = m1 || c = m2) && !r.isEmpty && (r.dropWhile dig).isEmpty
  | _ => false

/-- Optional sign then at least one digit, exhausting the input (the exponent
of a decimal literal). -/
def isExpSignTail (l : List Char) : Bool :=
  let l2 := match l with
    | '+' :: r => r
    | '-' :: r => r
    | r => r
  !l2.isEmpty && (l2.dropWhile Char.isDigit).isEmpty

/-- An optional exponent part `e`/`E` with signed digits, exhausting the
input. -/
def isExpTail : List Char → Bool
  | [] => true
  | 'e' :: r => isExpSignTail r
  | 'E' :: r => isExpSignTail r
  | _ => false

/-- Decimal literal body (after an optional sign): digits with an optional
fraction, or a leading-dot fraction, followed by an optional exponent. -/
def isDecTail (l : List Char) : Bool :=
  let ds := l.takeWhile Char.isDigit
  let r := l.dropWhile Char.isDigit
  if ds.isEmpty then
    match r with
    | '.' :: r2 =>
      let fs := r2.takeWhile Char.isDigit
      !fs.isEmpty && isExpTail (r2.dropWhile Char.isDigit)
    | _ => false
  else
    match r with
    | [] => true
    | '.' :: r2 => isExpTail (r2.dropWhile Char.isDigit)
    | _ => isExpTail r

/-- Strip one optional leading sign. -/
def stripSign : List Char → List Char
  | '+' :: r => r
  | '-' :: r => r
  | r => r

/-- Numeric test `!Number.isNaN(Number(s))`: the string converts to a number (empty and
all-whitespace strings convert to `0`; otherwise a decimal, hex, octal or
binary literal or a signed `Infinity`). -/
def isJsNumericString (s : List Char) : Bool :=
  let t := jsTrim s
  t.isEmpty
  || isRadixLit 'x' 'X' isHexDigitJS t
  || isRadixLit 'o' 'O' isOctDigitJS t
  || isRadixLit 'b' 'B' isBinDigitJS t
  || stripSign t = ("Infinity".data)
  || isDecTail (stripSign t)

/-- The optional trailing delimiter `[;\x7d]?` of the variable patterns. -/
def consumeOptDelim : List Char → List Char
  | ';' :: r => r
  | '}' :: r => r
  | l => l

/-- One attempt of the pattern `PRE([^:]+):\s*([^;\x7d]+)[;\x7d]?` at the head
of `l`: the literal prefix, a nonempty name up to the colon, the colon,
greedy whitespace, a nonempty raw value up to a `;`/`\x7d` boundary (with the
one-character backtrack into trailing whitespace when the boundary follows
the whitespace run directly — whitespace belongs to the value class), and the
optional delimiter.  Returns the two captures and the rest of the input after
the consumed text. -/
def matchVarAt (pre l : List Char) : Option (List Char × List Char × List Char) :=
  match dropLit pre l with
  | none => none
  | some r1 =>
    match r1.dropWhile (fun c => decide (c ≠ ':')) with
    | ':' :: r2 =>
      if (r1.takeWhile (fun c => decide (c ≠ ':'))).isEmpty then none
      else if ((r2.dropWhile isWsJS).takeWhile
          (fun c => decide (c ≠ ';' ∧ c ≠ '}'))).isEmpty then
        match (r2.takeWhile isWsJS).reverse with
        | [] => none
        | w :: _ =>
          some (r1.takeWhile (fun c => decide (c ≠ ':')), [w],
            consumeOptDelim (r2.dropWhile isWsJS))
      else
        some (r1.takeWhile (fun c => decide (c ≠ ':')),
          (r2.dropWhile isWsJS).takeWhile (fun c => decide (c ≠ ';' ∧ c ≠ '}')),
          consumeOptDelim
            ((r2.dropWhile isWsJS).dropWhile (fun c => decide (c ≠ ';' ∧ c ≠ '}'))))
    | _ => none

/-- The `regex.exec` loop of `extractVariables`: failed attempts advance one
position, successful matches continue after the consumed text and push the
name together with the trimmed value.  The fuel (instantiated with the input
length) only bounds the recursion and never truncates the scan
(`extractVarsAux_fuel_irrel`). -/
def extractVarsAux (pre : List Char) : Nat → List Char → List (List Char × List Char)
  | 0, _ => []
  | _, [] => []
  | fuel + 1, l =>
    match matchVarAt pre l with
    | some (name, value, r) => (name, jsTrim value) :: extractVarsAux pre fuel r
    | none => extractVarsAux pre fuel l.tail

/-- The helper `extractVariables(regex, content)` for the prefix patterns used by the
plugin. -/
def extractVars (pre content : List Char) : List (List Char × List Char) :=
  extractVarsAux pre content.length content

/-- A generated color palette entry (`ColorPalette` in the source). -/
structure ColorPalette : Type where
  name : List Char
  slug : List Char
  color : List Char
deriving DecidableEq

/-- A generated font family entry (`FontFamily` in the source). -/
structure FontFamily : Type where
  name : List Char
  slug : List Char
  fontFamily : List Char
deriving DecidableEq

/-- A generated font size entry (`FontSize` in the source). -/
structure FontSize : Type where
  name : List Char
  slug : List Char
  size : List Char
deriving DecidableEq

/-- The color display name of `colorEntries`:
`const [colorName, shade] = name.split('-')`, capitalize the first segment,
and when `shade && !Number.isNaN(Number(shade))`, use the configured shade
label (`label + ' ' + capitalized`) or `capitalized + ' (' + shade + ')'`;
otherwise just the capitalized first segment. -/
def colorDisplayName (shadeLabels : Option (List (List Char × List Char)))
    (name : List Char) : List Char :=
  match splitOnChar '-' name with
  | [] => capitalizeJS []
  | colorName :: segs =>
    match segs.head? with
    | none => capitalizeJS colorName
    | some sh =>
      if !sh.isEmpty && isJsNumericString sh then
        match shadeLabels with
        | some labels =>
          match lookupLabel labels sh with
          | some lab => lab ++ ' ' :: capitalizeJS colorName
          | none => capitalizeJS colorName ++ (" (".data) ++ sh ++ (")".data)
        | none => capitalizeJS colorName ++ (" (".data) ++ sh ++ (")".data)
      else capitalizeJS colorName

/-- The map step of `colorEntries`: display name, lowercased raw suffix as
slug, raw (trimmed) value as color. -/
def colorEntryOf (shadeLabels : Option (List (List Char × List Char)))
    (nv : List Char × List Char) : ColorPalette :=
  { name := colorDisplayName shadeLabels nv.1
  , slug := toLowerJS nv.1
  , color := nv.2 }

/-- The theme-block part of `colorEntries`: extracted variables, minus the
`-*` wildcard declarations, classified. -/
def colorEntriesFrom (shadeLabels : Option (List (List Char × List Char)))
    (vars : List (List Char × List Char)) : List ColorPalette :=
  (vars.filter (fun nv => !endsWithChars ("-*".data) nv.1)).map (colorEntryOf shadeLabels)

/-- The reserved sub-property substrings dropped from font-family results
(`invalidFontProps` in the source). -/
def invalidFontProps : List (List Char) :=
  [("feature-settings".data), ("variation-settings".data), ("family".data),
   ("size".data), ("smoothing".data), ("style".data), ("weight".data),
   ("stretch".data)]

/-- The map step of `fontFamilyEntries`: raw suffix as name, lowercased
suffix as slug, value with every `'` and `"` removed
(`value.replace(/['"]/g, '')`). -/
def fontFamilyEntryOf (nv : List Char × List Char) : FontFamily :=
  { name := nv.1
  , slug := toLowerJS nv.1
  , fontFamily := nv.2.filter (fun c => !(c = '\'' || c = '"')) }

/-- The theme-block part of `fontFamilyEntries`: extracted variables whose
suffix contains none of the reserved substrings, classified. -/
def fontFamilyEntriesFrom (vars : List (List Char × List Char)) : List FontFamily :=
  (vars.filter (fun nv => !invalidFontProps.any (fun p => containsChars p nv.1))).map
    fontFamilyEntryOf

/-- The map step of `fontSizeEntries`: raw suffix as name, lowercased suffix
as slug, raw (trimmed) value as size. -/
def fontSizeEntryOf (nv : List Char × List Char) : FontSize :=
  { name := nv.1
  , slug := toLowerJS nv.1
  , size := nv.2 }

/-- The theme-block part of `fontSizeEntries`: extracted variables whose
suffix does not contain `line-height`, classified.  (This is the only
filter in the source; there is no `shadow` filter and no sorting.) -/
def fontSizeEntriesFrom (vars : List (List Char × List Char)) : List FontSize :=
  (vars.filter (fun nv => !containsChars ("line-height".data) nv.1)).map fontSizeEntryOf

/-- Colors generated from a theme-block content string. -/
def themeColorEntries (shadeLabels : Option (List (List Char × List Char)))
    (content : List Char) : List ColorPalette :=
  colorEntriesFrom shadeLabels (extractVars ("--color-".data) content)

/-- Font families generated from a theme-block content string. -/
def themeFontFamilyEntries (content : List Char) : List FontFamily :=
  fontFamilyEntriesFrom (extractVars ("--font-".data) content)

/-- Font sizes generated from a theme-block content string. -/
def themeFontSizeEntries (content : List Char) : List FontSize :=
  fontSizeEntriesFrom (extractVars ("--text-".data) content)

/-- The relevant arrays of a base `theme.json` document
(`baseThemeJson.settings?.color?.palette`,
`...typography?.fontFamilies`, `...typography?.fontSizes`); `none` models an
absent field. -/
structure BaseSettings : Type where
  colorPalette : Option (List ColorPalette)
  fontFamilies : Option (List FontFamily)
  fontSizes : Option (List FontSize)
deriving DecidableEq

/-- The generated arrays of the output `theme.json` settings; `none` models a
field set to `undefined` by a disable switch. -/
structure OutSettings : Type where
  palette : Option (List ColorPalette)
  fontFamilies : Option (List FontFamily)
  fontSizes : Option (List FontSize)
deriving DecidableEq

/-- The merge step of `generateBundle`: each category array is
`[...(base array || []), ...(new entries || [])]`, or `undefined` when the
category is disabled. -/
def buildSettings (disableColors disableFonts disableSizes : Bool)
    (base : BaseSettings) (colorE : List ColorPalette) (famE : List FontFamily)
    (sizeE : List FontSize) : OutSettings :=
  { palette := if disableColors then none
      else some ((base.colorPalette.getD []) ++ colorE)
  , fontFamilies := if disableFonts then none
      else some ((base.fontFamilies.getD []) ++ famE)
  , fontSizes := if disableSizes then none
      else some ((base.fontSizes.getD []) ++ sizeE) }

/-- Evaluation of `cssContent ? extractThemeContent(cssContent) : null` — the captured CSS
is used only when truthy (non-null and nonempty). -/
def themeContentOf (cssContent : Option (List Char)) :
    Except (List Char) (Option (List Char)) :=
  match cssContent with
  | none => .ok none
  | some css => if css.isEmpty then .ok none else extractThemeContent css

/-- Whether `generateBundle` reaches its `emitFile` call:
`if (!themeContent && !resolvedTailwindConfig) return;` — no output at all
when the extracted content is falsy (no block, or an empty block) and no
legacy Tailwind config was supplied.  An extraction error propagates. -/
def emitsOutput (cssContent : Option (List Char)) (hasTailwindConfig : Bool) :
    Except (List Char) Bool :=
  match themeContentOf cssContent with
  | .error e => .error e
  | .ok tc =>
    .ok ((match tc with
          | none => false
          | some l => !l.isEmpty) || hasTailwindConfig)

example : extractThemeContent (" @theme \x7b --x: 1; \x7d".data) =
    .ok (some (" --x: 1; ".data)) := by decide

example : extractThemeContent ("@theme \x7b --x: 1; \x7d".data) = .ok none := by decide

example : extractThemeContent ("x@layer theme \x7b a \x7b b \x7d c \x7d z".data) =
    .ok (some (" a \x7b b \x7d c ".data)) := by decide

example : extractThemeContent ("x@theme \x7b --a: 1;".data) =
    .error (unclosedMsg ("@theme \x7b".data)) := by decide

example : extractThemeContent ("no block here".data) = .ok none := by decide

/-- The source scanner agrees with the specification-level matching-brace
search: started at absolute position `pos` (with depth at least 1) it returns
exactly `pos + offset`, where `offset` is the specification-level offset of
the matching brace, and it fails exactly when no matching brace exists. -/
theorem scanBlock_eq_closeOffset (s : ScanMode) (d : Nat) (l : List Char) :
    ∀ (pos : Nat), 1 ≤ d →
      scanBlock s (d : Int) pos l = (closeOffset s d l).map (pos + ·) := by
  induction s, d, l using closeOffset.induct with
  | case1 s d =>
    intro pos hd
    cases s <;> simp [scanBlock, closeOffset]
  | case2 d c rest ih =>
    intro pos hd
    rw [show scanBlock .normal (d : Int) pos ('\\' :: c :: rest)
        = scanBlock .normal (d : Int) (pos + 2) rest from rfl]
    rw [show closeOffset .normal d ('\\' :: c :: rest)
        = (· + 2) <$> closeOffset .normal d rest from rfl]
    rw [ih (pos + 2) hd]
    cases closeOffset .normal d rest <;> simp +arith
  | case3 d =>
    intro pos hd
    rfl
  | case4 d rest ih =>
    intro pos hd
    rw [show scanBlock .normal (d : Int) pos ('\'' :: rest)
        = scanBlock (.inStr '\'') (d : Int) (pos + 1) rest from rfl]
    rw [show closeOffset .normal d ('\'' :: rest)
        = (· + 1) <$> closeOffset (.inStr '\'') d rest from rfl]
    rw [ih (pos + 1) hd]
    cases closeOffset (.inStr '\'') d rest <;> simp +arith
  | case5 d rest ih =>
    intro pos hd
    rw [show scanBlock .normal (d : Int) pos ('"' :: rest)
        = scanBlock (.inStr '"') (d : Int) (pos + 1) rest from rfl]
    rw [show closeOffset .normal d ('"' :: rest)
        = (· + 1) <$> closeOffset (.inStr '"') d rest from rfl]
    rw [ih (pos + 1) hd]
    cases closeOffset (.inStr '"') d rest <;> simp +arith
  | case6 d rest ih =>
    intro pos hd
    rw [show scanBlock .normal (d : Int) pos ('/' :: '*' :: rest)
        = scanBlock .inCom (d : Int) (pos + 2) rest from rfl]
    rw [show closeOffset .normal d ('/' :: '*' :: rest)
        = (· + 2) <$> closeOffset .inCom d rest from rfl]
    rw [ih (pos + 2) hd]
    cases closeOffset .inCom d rest <;> simp +arith
  | case7 d c rest h1 h2 h3 h4 h5 d2 hz0 =>
    intro pos hd
    have hz : (if c = '{' then d + 1 else if c = '}' then d - 1 else d) = 0 := hz0
    rw [scanBlock.eq_7 _ _ _ _ h1 h2 h3 h4 h5, closeOffset.eq_7 _ _ _ h1 h2 h3 h4 h5]
    have hcbr : c = '}' := by
      by_cases hob : c = '{'
      · rw [if_pos hob] at hz; omega
      · by_cases hcb : c = '}'
        · exact hcb
        · rw [if_neg hob, if_neg hcb] at hz; omega
    subst hcbr
    rw [if_neg (by decide), if_pos rfl] at hz
    have hd1 : d = 1 := by omega
    subst hd1
    simp [show ('}' : Char) ≠ '{' from by decide]
  | case8 d c rest h1 h2 h3 h4 h5 d2 hz0 ih0 =>
    intro pos hd
    have hz : ¬ (if c = '{' then d + 1 else if c = '}' then d - 1 else d) = 0 := hz0
    have ih : ∀ (pos : Nat), 1 ≤ (if c = '{' then d + 1 else if c = '}' then d - 1 else d) →
        scanBlock .normal ((if c = '{' then d + 1 else if c = '}' then d - 1 else d : Nat) : Int)
          pos rest
        = (closeOffset .normal (if c = '{' then d + 1 else if c = '}' then d - 1 else d)
            rest).map (pos + ·) := ih0
    rw [scanBlock.eq_7 _ _ _ _ h1 h2 h3 h4 h5, closeOffset.eq_7 _ _ _ h1 h2 h3 h4 h5]
    have hcast : (if c = '{' then (d : Int) + 1 else if c = '}' then (d : Int) - 1 else (d : Int))
        = ((if c = '{' then d + 1 else if c = '}' then d - 1 else d : Nat) : Int) := by
      split_ifs <;> omega
    rw [hcast, if_neg (by exact_mod_cast hz), if_neg hz, ih (pos + 1) (by omega)]
    cases closeOffset .normal (if c = '{' then d + 1 else if c = '}' then d - 1 else d) rest <;>
      simp +arith
  | case9 q d c rest ih =>
    intro pos hd
    rw [show scanBlock (.inStr q) (d : Int) pos ('\\' :: c :: rest)
        = scanBlock (.inStr q) (d : Int) (pos + 2) rest from rfl]
    rw [show closeOffset (.inStr q) d ('\\' :: c :: rest)
        = (· + 2) <$> closeOffset (.inStr q) d rest from rfl]
    rw [ih (pos + 2) hd]
    cases closeOffset (.inStr q) d rest <;> simp +arith
  | case10 q d =>
    intro pos hd
    rfl
  | case11 d c rest h1 h2 ih =>
    intro pos hd
    rw [scanBlock.eq_10 _ _ _ _ _ h1 h2, closeOffset.eq_10 _ _ _ _ h1 h2]
    rw [if_pos rfl, if_pos rfl, ih (pos + 1) hd]
    cases closeOffset .normal d rest <;> simp +arith
  | case12 q d c rest h1 h2 hne ih =>
    intro pos hd
    rw [scanBlock.eq_10 _ _ _ _ _ h1 h2, closeOffset.eq_10 _ _ _ _ h1 h2]
    rw [if_neg hne, if_neg hne, ih (pos + 1) hd]
    cases closeOffset (.inStr q) d rest <;> simp +arith
  | case13 d rest ih =>
    intro pos hd
    rw [show scanBlock .inCom (d : Int) pos ('*' :: '/' :: rest)
        = scanBlock .normal (d : Int) (pos + 2) rest from rfl]
    rw [show closeOffset .inCom d ('*' :: '/' :: rest)
        = (· + 2) <$> closeOffset .normal d rest from rfl]
    rw [ih (pos + 2) hd]
    cases closeOffset .normal d rest <;> simp +arith
  | case14 d c rest h1 ih =>
    intro pos hd
    rw [scanBlock.eq_12 _ _ _ _ h1, closeOffset.eq_12 _ _ _ h1]
    rw [ih (pos + 1) hd]
    cases closeOffset .inCom d rest <;> simp +arith

/-- A successful `dropLit` is exactly stripping the literal from the front. -/
theorem dropLit_eq : ∀ (p l r : List Char), dropLit p l = some r → l = p ++ r := by
  intro p
  induction p with
  | nil =>
    intro l r h
    simp only [dropLit, Option.some.injEq] at h
    simp [h]
  | cons c cs ih =>
    intro l r h
    cases l with
    | nil => simp [dropLit] at h
    | cons a as =>
      simp only [dropLit] at h
      by_cases hca : c = a
      · rw [if_pos hca] at h
        subst hca
        simpa using ih as r h
      · rw [if_neg hca] at h
        cases h

/-- A successful `parseThemeTail` consumed `theme`, some filler, and an
opening brace. -/
theorem parseThemeTail_shape (l r : List Char) (h : parseThemeTail l = some r) :
    ∃ mid, l = ("theme".data) ++ mid ++ '{' :: r := by
  unfold parseThemeTail at h
  split at h
  · cases h
  · rename_i r1 hdl
    split at h
    · rename_i r2 hdw
      injection h with hr
      subst hr
      refine ⟨r1.takeWhile isWsJS, ?_⟩
      rw [dropLit_eq _ _ _ hdl]
      conv_lhs => rw [← List.takeWhile_append_dropWhile isWsJS r1]
      rw [hdw]
      simp
    · cases h

/-- A successful `parseLayerTail` consumed `layer`, some filler, and an
opening brace. -/
theorem parseLayerTail_shape (l r : List Char) (h : parseLayerTail l = some r) :
    ∃ mid, l = ("layer".data) ++ mid ++ '{' :: r := by
  unfold parseLayerTail at h
  split at h
  · cases h
  · split at h
    · rename_i c cs hdl
      split at h
      · obtain ⟨mid, hmid⟩ := parseThemeTail_shape _ _ h
        refine ⟨(c :: cs).takeWhile isWsJS ++ ("theme".data) ++ mid, ?_⟩
        rw [dropLit_eq _ _ _ hdl]
        conv_lhs => rw [← List.takeWhile_append_dropWhile isWsJS (c :: cs)]
        rw [hmid]
        simp
      · cases h
    · cases h

/-- Taking the matched length out of `@` + consumed-ending-in-brace + rest
yields the consumed text. -/
theorem take_after_open (pre r : List Char) :
    ('@' :: (pre ++ '{' :: r)).take (pre.length + 2) = '@' :: (pre ++ ['{']) := by
  rw [show pre.length + 2 = (pre.length + 1) + 1 by omega]
  rw [List.take_succ_cons]
  rw [show (pre ++ '{' :: r).take (pre.length + 1) = pre ++ ('{' :: r).take 1 from
    List.take_append 1]
  simp

/-- The matched text of the theme-opening regex starts with `@` and ends with
the opening brace. -/
theorem matchThemeAt_shape (l : List Char) (len : Nat) (h : matchThemeAt l = some len) :
    ∃ mid, l.take len = '@' :: (mid ++ ['{']) := by
  unfold matchThemeAt at h
  split at h
  · rename_i rest
    cases hlay : parseLayerTail rest with
    | some r =>
      rw [hlay] at h
      injection h with hlen
      obtain ⟨mid, hmid⟩ := parseLayerTail_shape _ _ hlay
      refine ⟨("layer".data) ++ mid, ?_⟩
      subst hmid
      have hlen2 : len = (("layer".data) ++ mid).length + 2 := by
        rw [← hlen]
        simp
        omega
      rw [hlen2, show ("layer".data) ++ mid ++ '{' :: r
            = (("layer".data) ++ mid) ++ '{' :: r by simp]
      exact take_after_open _ r
    | none =>
      rw [hlay] at h
      cases hth : parseThemeTail rest with
      | some r =>
        rw [hth] at h
        injection h with hlen
        obtain ⟨mid, hmid⟩ := parseThemeTail_shape _ _ hth
        refine ⟨("theme".data) ++ mid, ?_⟩
        subst hmid
        have hlen2 : len = (("theme".data) ++ mid).length + 2 := by
          rw [← hlen]
          simp
          omega
        rw [hlen2, show ("theme".data) ++ mid ++ '{' :: r
              = (("theme".data) ++ mid) ++ '{' :: r by simp]
        exact take_after_open _ r
      | none =>
        rw [hth] at h
        cases h
  · cases h

/-- The function `findThemeMatch` reports a match index at which `matchThemeAt` succeeds
with the reported length. -/
theorem findThemeMatch_drop :
    ∀ (css : List Char) (i len : Nat),
      findThemeMatch css = some (i, len) → matchThemeAt (css.drop i) = some len := by
  intro css
  induction css with
  | nil => intro i len h; cases h
  | cons c rest ih =>
    intro i len h
    unfold findThemeMatch at h
    split at h
    · rename_i L hm
      injection h with hpair
      injection hpair with hi hlen
      subst hlen
      rw [← hi]
      simpa using hm
    · rename_i hm
      split at h
      · rename_i pi plen hf
        injection h with hpair
        injection hpair with hi hlen
        rw [← hi, ← hlen]
        simpa using ih pi plen hf
      · cases h

/-- Trimming keeps a string whose first and last characters are not
whitespace. -/
theorem jsTrim_of_ends (a b : Char) (xs : List Char)
    (ha : isWsJS a = false) (hb : isWsJS b = false) :
    jsTrim (a :: (xs ++ [b])) = a :: (xs ++ [b]) := by
  unfold jsTrim
  rw [List.dropWhile_cons]
  rw [ha]
  simp only [Bool.false_eq_true, if_false]
  rw [show (a :: (xs ++ [b])).reverse = b :: (xs.reverse ++ [a]) by simp]
  rw [List.dropWhile_cons]
  rw [hb]
  simp

/-- The substring `substring(i, i + len)` is take-of-drop. -/
theorem jsSubstring_drop_take (l : List Char) (i len : Nat) :
    jsSubstring l i (i + len) = (l.drop i).take len := by
  unfold jsSubstring
  rw [Nat.min_eq_left (by omega), Nat.max_eq_right (by omega)]
  rw [List.take_drop]

/-- The matched block-opening text is kept unchanged by `trim` (it starts
with `@` and ends with the opening brace, neither of which is whitespace). -/
theorem jsTrim_matched (css : List Char) (i len : Nat)
    (h : findThemeMatch css = some (i, len)) :
    jsTrim (jsSubstring css i (i + len)) = jsSubstring css i (i + len) := by
  obtain ⟨mid, hmid⟩ := matchThemeAt_shape _ _ (findThemeMatch_drop css i len h)
  rw [jsSubstring_drop_take, hmid]
  exact jsTrim_of_ends '@' '{' mid (by decide) (by decide)

/-- C1 (amended): for every CSS input in which the theme-block opening
(`@theme \x7b` or `@layer theme \x7b`) is matched at a nonzero index and the
specification-level matching closing brace exists at offset `p` after the
opening brace (brace characters inside quoted strings, inside comments, or
immediately after a backslash not affecting the depth count),
`extractThemeContent` returns exactly the substring strictly between the
opening brace and that matching closing brace.  (The original claim, without
the nonzero-index restriction, is refuted by
`extract_block_at_index_zero_cex`.) -/
theorem extract_returns_substring_between_braces
    (css : List Char) (i len p : Nat)
    (h1 : findThemeMatch css = some (i, len)) (h2 : i ≠ 0)
    (h3 : closeOffset .normal 1 (css.drop (i + len)) = some p) :
    extractThemeContent css = .ok (some (jsSubstring css (i + len) (i + len + p)))
    ∧ jsSubstring css (i + len) (i + len + p) = (css.drop (i + len)).take p := by
  have hscan : scanBlock .normal (1 : Int) (i + len) (css.drop (i + len))
      = some (i + len + p) := by
    have h := scanBlock_eq_closeOffset .normal 1 (css.drop (i + len)) (i + len) (le_refl 1)
    norm_num at h
    rw [h, h3]
    rfl
  refine ⟨?_, jsSubstring_drop_take css (i + len) p⟩
  unfold extractThemeContent
  rw [h1]
  simp only [if_neg h2, hscan]

/-- C1 counterexample: the input `@theme \x7b\x7d` contains a balanced theme
block (its matching closing brace is at offset 0), yet `extractThemeContent`
returns the no-block result `null` instead of the empty block content,
because the falsy guard `!themeMatch?.index` treats a match at index 0 as no
match. -/
theorem extract_block_at_index_zero_cex :
    findThemeMatch ("@theme \x7b\x7d".data) = some (0, 8)
    ∧ closeOffset .normal 1 (("@theme \x7b\x7d".data).drop 8) = some 0
    ∧ extractThemeContent ("@theme \x7b\x7d".data) = .ok none
    ∧ extractThemeContent ("@theme \x7b\x7d".data)
        ≠ .ok (some (jsSubstring ("@theme \x7b\x7d".data) 8 8)) := by
  refine ⟨by decide, by decide, by decide, by decide⟩

/-- C1 witness: a concrete block containing a brace-bearing string literal,
a brace-bearing comment and a nested brace pair, preceded by one character so
the match index is nonzero. -/
theorem extract_returns_substring_between_braces_witness :
    findThemeMatch ("x@theme \x7b a:\x27\x7d\x27; /*\x7d*/ \x7b \x7d \x7d tail".data)
        = some (1, 8)
    ∧ (1 : Nat) ≠ 0
    ∧ closeOffset .normal 1
        (("x@theme \x7b a:\x27\x7d\x27; /*\x7d*/ \x7b \x7d \x7d tail".data).drop 9) = some 18
    ∧ extractThemeContent ("x@theme \x7b a:\x27\x7d\x27; /*\x7d*/ \x7b \x7d \x7d tail".data)
        = .ok (some (" a:\x27\x7d\x27; /*\x7d*/ \x7b \x7d ".data)) := by
  refine ⟨by decide, by decide, by decide, ?_⟩
  have h := extract_returns_substring_between_braces
    ("x@theme \x7b a:\x27\x7d\x27; /*\x7d*/ \x7b \x7d \x7d tail".data) 1 8 18
    (by decide) (by decide) (by decide)
  rw [h.1]
  decide

/-- C2: whenever the theme-block opening is matched (at a nonzero index, so
that the scan actually runs) and the character scan exhausts the input before
the brace depth returns to zero, `extractThemeContent` throws an error whose
message names the matched block-opening text; it does not return any string
result in that case. -/
theorem extract_unclosed_block_error
    (css : List Char) (i len : Nat)
    (h1 : findThemeMatch css = some (i, len)) (h2 : i ≠ 0)
    (h3 : scanBlock .normal 1 (i + len) (css.drop (i + len)) = none) :
    extractThemeContent css = .error (unclosedMsg ((css.drop i).take len))
    ∧ (∀ o, extractThemeContent css ≠ .ok o) := by
  have hmain : extractThemeContent css = .error (unclosedMsg ((css.drop i).take len)) := by
    unfold extractThemeContent
    rw [h1]
    simp only [if_neg h2, h3]
    rw [jsTrim_matched css i len h1, jsSubstring_drop_take]
  exact ⟨hmain, fun o ho => by rw [hmain] at ho; cases ho⟩

/-- C2 witness: an `@layer theme` block opened at index 1 and never closed
(the scan ends inside a string literal). -/
theorem extract_unclosed_block_error_witness :
    findThemeMatch ("x@layer theme \x7b --a: \x27oops".data) = some (1, 14)
    ∧ (1 : Nat) ≠ 0
    ∧ scanBlock .normal 1 15 (("x@layer theme \x7b --a: \x27oops".data).drop 15) = none
    ∧ extractThemeContent ("x@layer theme \x7b --a: \x27oops".data)
        = .error (unclosedMsg ("@layer theme \x7b".data)) := by
  refine ⟨by decide, by decide, by decide, ?_⟩
  have h := extract_unclosed_block_error ("x@layer theme \x7b --a: \x27oops".data) 1 14
    (by decide) (by decide) (by decide)
  rw [h.1]
  decide

/-- C10: when the theme-block-opening pattern matches at index 0 (the CSS
input begins with the block opening), `extractThemeContent` returns `null`
— the no-block-found result — even though a block is present, because the
guard `!themeMatch?.index` treats a match at index 0 the same as no match. -/
theorem extract_match_at_index_zero_returns_null
    (css : List Char) (len : Nat)
    (h : findThemeMatch css = some (0, len)) :
    extractThemeContent css = .ok none := by
  unfold extractThemeContent
  rw [h]
  simp

/-- C10 witness: an input that begins with a well-formed `@theme` block. -/
theorem extract_match_at_index_zero_returns_null_witness :
    findThemeMatch ("@theme \x7b --color-a: #fff; \x7d".data) = some (0, 8)
    ∧ extractThemeContent ("@theme \x7b --color-a: #fff; \x7d".data) = .ok none := by
  exact ⟨by decide,
    extract_match_at_index_zero_returns_null ("@theme \x7b --color-a: #fff; \x7d".data) 8
      (by decide)⟩

example : isJsNumericString ("500".data) = true := by decide

example : isJsNumericString ("0".data) = true := by decide

example : isJsNumericString ("1e3".data) = true := by decide

example : isJsNumericString (" 42 ".data) = true := by decide

example : isJsNumericString ("test".data) = false := by decide

example : isJsNumericString ("hover".data) = false := by decide

example : isJsNumericString ("1.2.3".data) = false := by decide

/-- Dropping a prefix cannot lengthen a list. -/
theorem dropWhile_length_le (p : α → Bool) (l : List α) :
    (l.dropWhile p).length ≤ l.length := by
  induction l with
  | nil => simp
  | cons a rest ih =>
    rw [List.dropWhile_cons]
    split
    · simp
      omega
    · simp

example : extractVars ("--color-".data)
      (" --color-red-500: #ef4444; --color-primary: #000000; ".data)
    = [(("red-500".data), ("#ef4444".data)), (("primary".data), ("#000000".data))] := by
  decide

/-- A successful match consumes at least the pattern prefix, so the remaining
input is strictly shorter. -/
theorem matchVarAt_rest_lt (pre l name value r : List Char)
    (h : matchVarAt pre l = some (name, value, r)) (hpre : 0 < pre.length) :
    r.length < l.length := by
  have hdelim : ∀ (x : List Char), (consumeOptDelim x).length ≤ x.length := by
    intro x
    unfold consumeOptDelim
    split
    · simp
    · simp
    · simp
  unfold matchVarAt at h
  split at h
  · cases h
  · rename_i r1 hdl
    have hl : l = pre ++ r1 := dropLit_eq _ _ _ hdl
    have hr1 : r1.length < l.length := by
      rw [hl]
      simp
      omega
    split at h
    · rename_i r2 hdw
      have hr2 : r2.length < r1.length := by
        have hlen := congrArg List.length hdw
        rw [List.length_cons] at hlen
        have hd := dropWhile_length_le (fun c => decide (c ≠ ':')) r1
        omega
      split at h
      · cases h
      · split at h
        · split at h
          · cases h
          · rename_i w ws hws
            simp only [Option.some.injEq, Prod.mk.injEq] at h
            obtain ⟨h1, h2, h3⟩ := h
            subst h3
            have hc1 := hdelim (r2.dropWhile isWsJS)
            have hc2 := dropWhile_length_le isWsJS r2
            omega
        · simp only [Option.some.injEq, Prod.mk.injEq] at h
          obtain ⟨h1, h2, h3⟩ := h
          subst h3
          have hc1 := hdelim
            ((r2.dropWhile isWsJS).dropWhile (fun c => decide (c ≠ ';' ∧ c ≠ '}')))
          have hc2 := dropWhile_length_le (fun c => decide (c ≠ ';' ∧ c ≠ '}'))
            (r2.dropWhile isWsJS)
          have hc3 := dropWhile_length_le isWsJS r2
          omega
    · cases h

/-- The fuel of `extractVarsAux` is irrelevant as soon as it covers the input
length: the scan it models is never truncated. -/
theorem extractVarsAux_fuel_irrel (pre : List Char) (hpre : 0 < pre.length) :
    ∀ (n : Nat) (l : List Char) (f1 f2 : Nat), l.length = n →
      l.length ≤ f1 → l.length ≤ f2 →
      extractVarsAux pre f1 l = extractVarsAux pre f2 l := by
  intro n
  induction n using Nat.strong_induction_on with
  | _ n ih =>
    intro l f1 f2 hn h1 h2
    cases l with
    | nil =>
      cases f1 <;> cases f2 <;> rfl
    | cons c rest =>
      rw [List.length_cons] at hn h1 h2
      cases f1 with
      | zero => omega
      | succ a =>
        cases f2 with
        | zero => omega
        | succ b =>
          show (match matchVarAt pre (c :: rest) with
            | some (name, value, r) =>
              (name, jsTrim value) :: extractVarsAux pre a r
            | none => extractVarsAux pre a rest) =
            (match matchVarAt pre (c :: rest) with
            | some (name, value, r) =>
              (name, jsTrim value) :: extractVarsAux pre b r
            | none => extractVarsAux pre b rest)
          cases hm : matchVarAt pre (c :: rest) with
          | some nvr =>
            obtain ⟨name, value, r⟩ := nvr
            have hlt : r.length < (c :: rest).length :=
              matchVarAt_rest_lt pre _ name value r hm hpre
            rw [List.length_cons] at hlt
            simp only []
            rw [ih r.length (by omega) r a b rfl (by omega) (by omega)]
          | none =>
            simp only []
            exact ih rest.length (by omega) rest a b rfl (by omega) (by omega)

example : themeColorEntries none ("--color-red-500: #ef4444;".data)
    = [{ name := ("Red (500)".data), slug := ("red-500".data),
         color := ("#ef4444".data) }] := by decide

example : themeColorEntries (some [(("500".data), ("Default".data))])
      ("--color-red-500: #ef4444;".data)
    = [{ name := ("Default Red".data), slug := ("red-500".data),
         color := ("#ef4444".data) }] := by decide

example : themeColorEntries none ("--color-primary: #000000;".data)
    = [{ name := ("Primary".data), slug := ("primary".data),
         color := ("#000000".data) }] := by decide

example : themeFontFamilyEntries ("--font-feature-settings: \"ss01\"; --font-inter: \"Inter\";".data)
    = [{ name := ("inter".data), slug := ("inter".data),
         fontFamily := ("Inter".data) }] := by decide

/-- The `UInt32` order is the order of the underlying numbers. -/
theorem uint32_le_iff_toNat (a b : UInt32) : a ≤ b ↔ a.toNat ≤ b.toNat := Iff.rfl

/-- A decimal digit is not JavaScript whitespace and is neither a hyphen nor
a sign character. -/
theorem digit_char_facts (c : Char) (h : c.isDigit = true) :
    isWsJS c = false ∧ c ≠ '-' ∧ c ≠ '+' := by
  simp [Char.isDigit] at h
  obtain ⟨h1, h2⟩ := h
  have h1n : 48 ≤ c.val.toNat := h1
  have h2n : c.val.toNat ≤ 57 := h2
  refine ⟨?_, ?_, ?_⟩
  · simp only [isWsJS, Char.ext_iff, Char.le_def, UInt32.ext_iff,
      uint32_le_iff_toNat, Bool.or_eq_false_iff, decide_eq_false_iff_not,
      Bool.and_eq_false_iff, decide_eq_true_eq]
    simp only [(by decide : (' ' : Char).val.toNat = 32),
      (by decide : ('\t' : Char).val.toNat = 9),
      (by decide : ('\n' : Char).val.toNat = 10),
      (by decide : ('\r' : Char).val.toNat = 13),
      (by decide : ('\x0b' : Char).val.toNat = 11),
      (by decide : ('\x0c' : Char).val.toNat = 12),
      (by decide : (' ' : Char).val.toNat = 160),
      (by decide : (' ' : Char).val.toNat = 5760),
      (by decide : (' ' : Char).val.toNat = 8192),
      (by decide : (' ' : Char).val.toNat = 8202),
      (by decide : (' ' : Char).val.toNat = 8232),
      (by decide : (' ' : Char).val.toNat = 8233),
      (by decide : (' ' : Char).val.toNat = 8239),
      (by decide : (' ' : Char).val.toNat = 8287),
      (by decide : ('　' : Char).val.toNat = 12288),
      (by decide : ('﻿' : Char).val.toNat = 65279)]
    omega
  · simp only [Char.ext_iff, UInt32.ext_iff, ne_eq,
      (by decide : ('-' : Char).val.toNat = 45)]
    omega
  · simp only [Char.ext_iff, UInt32.ext_iff, ne_eq,
      (by decide : ('+' : Char).val.toNat = 43)]
    omega

/-- A split on a separator that does not occur yields the whole string. -/
theorem splitOnChar_not_mem (sep : Char) (l : List Char) (h : sep ∉ l) :
    splitOnChar sep l = [l] := by
  induction l with
  | nil => rfl
  | cons c rest ih =>
    have hc : ¬ c = sep := by
      intro e
      apply h
      rw [e]
      exact List.mem_cons_self _ _
    have hr : sep ∉ rest := fun m => h (List.mem_cons_of_mem _ m)
    unfold splitOnChar
    rw [ih hr]
    simp [hc]

/-- Splitting `a ++ sep :: b` when neither side contains the separator. -/
theorem splitOnChar_append (sep : Char) (a b : List Char)
    (ha : sep ∉ a) (hb : sep ∉ b) :
    splitOnChar sep (a ++ sep :: b) = [a, b] := by
  induction a with
  | nil =>
    simp only [List.nil_append]
    unfold splitOnChar
    rw [splitOnChar_not_mem sep b hb]
    simp
  | cons c a2 ih =>
    have hc : ¬ c = sep := by
      intro e
      apply ha
      rw [e]
      exact List.mem_cons_self _ _
    have ha2 : sep ∉ a2 := fun m => ha (List.mem_cons_of_mem _ m)
    simp only [List.cons_append]
    unfold splitOnChar
    rw [ih ha2]
    simp [hc]

/-- Trimming keeps a string with no whitespace at all. -/
theorem jsTrim_of_all (l : List Char) (h : ∀ c ∈ l, isWsJS c = false) :
    jsTrim l = l := by
  have hdw : ∀ (m : List Char), (∀ c ∈ m, isWsJS c = false) → m.dropWhile isWsJS = m := by
    intro m hm
    cases m with
    | nil => rfl
    | cons x xs =>
      rw [List.dropWhile_cons, hm x (by simp)]
      simp
  unfold jsTrim
  rw [hdw l h, hdw l.reverse (by intro c hc; exact h c (List.mem_reverse.mp hc)),
    List.reverse_reverse]

/-- A nonempty all-digit string converts to a number
(`!Number.isNaN(Number(s))`). -/
theorem isJsNumericString_digits (l : List Char) (hne : l ≠ [])
    (h : ∀ c ∈ l, c.isDigit = true) : isJsNumericString l = true := by
  have hws : ∀ c ∈ l, isWsJS c = false := fun c hc => (digit_char_facts c (h c hc)).1
  have htrim : jsTrim l = l := jsTrim_of_all l hws
  have hstrip : stripSign l = l := by
    cases l with
    | nil => rfl
    | cons c rest =>
      obtain ⟨-, hminus, hplus⟩ := digit_char_facts c (h c (by simp))
      unfold stripSign
      split
      · rename_i r heq
        injection heq with e1 e2
        exact absurd e1 hplus
      · rename_i r heq
        injection heq with e1 e2
        exact absurd e1 hminus
      · rfl
  have hemp : l.isEmpty = false := by
    cases l
    · exact absurd rfl hne
    · rfl
  have hdec : isDecTail l = true := by
    have htake : l.takeWhile Char.isDigit = l := List.takeWhile_eq_self_iff.mpr h
    have hdrop : l.dropWhile Char.isDigit = [] := List.dropWhile_eq_nil_iff.mpr h
    simp only [isDecTail]
    rw [htake, hdrop, hemp]
    simp
  simp only [isJsNumericString]
  rw [htrim, hstrip, hdec, hemp]
  simp

/-- C4 (amended): a color variable whose suffix is `base-shade` with a
hyphen-free base and a purely numeric shade classifies to slug = lowercased
raw suffix, color = the (trimmed) raw value, and display name
`label + ' ' + CapitalizedBase` when a shade label is configured for that
shade, else `CapitalizedBase + ' (' + shade + ')'`.  (The original claim,
covering every name-shade suffix with a purely numeric shade under a
last-hyphen split, is refuted by `color_last_hyphen_shade_cex`: when the
base itself contains a hyphen, `name.split('-')` makes the second segment
the shade, which is then non-numeric.) -/
theorem color_numeric_shade_classification
    (shadeLabels : Option (List (List Char × List Char)))
    (base shade v : List Char)
    (_hb : base ≠ []) (hbh : '-' ∉ base) (hs : shade ≠ [])
    (hsd : ∀ c ∈ shade, c.isDigit = true) :
    colorEntryOf shadeLabels (base ++ '-' :: shade, v) =
      { name := match shadeLabels with
          | some labels =>
            match lookupLabel labels shade with
            | some lab => lab ++ ' ' :: capitalizeJS base
            | none => capitalizeJS base ++ (" (".data) ++ shade ++ (")".data)
          | none => capitalizeJS base ++ (" (".data) ++ shade ++ (")".data)
      , slug := toLowerJS (base ++ '-' :: shade)
      , color := v } := by
  have hsh : '-' ∉ shade := by
    intro hm
    exact (digit_char_facts '-' (hsd '-' hm)).2.1 rfl
  have hsplit := splitOnChar_append '-' base shade hbh hsh
  have hnum := isJsNumericString_digits shade hs hsd
  have hemp : shade.isEmpty = false := by
    cases shade
    · exact absurd rfl hs
    · rfl
  unfold colorEntryOf colorDisplayName
  rw [hsplit]
  simp only [List.head?, hemp, hnum, Bool.not_false, Bool.and_self, if_true]

/-- C4 witness: `--color-red-500: #ef4444;` with shade label
`\x7b500: Default\x7d` yields `Default Red` / `red-500` / `#ef4444`. -/
theorem color_numeric_shade_classification_witness :
    (("red".data) ≠ ([] : List Char)
      ∧ '-' ∉ ("red".data)
      ∧ ("500".data) ≠ ([] : List Char)
      ∧ ∀ c ∈ ("500".data), c.isDigit = true)
    ∧ colorEntryOf (some [(("500".data), ("Default".data))])
        (("red-500".data), ("#ef4444".data))
      = { name := ("Default Red".data), slug := ("red-500".data),
          color := ("#ef4444".data) } := by
  refine ⟨⟨by decide, by decide, by decide, by decide⟩, ?_⟩
  have h := color_numeric_shade_classification
    (some [(("500".data), ("Default".data))]) ("red".data) ("500".data)
    ("#ef4444".data) (by decide) (by decide) (by decide) (by decide)
  rw [show ("red".data ++ '-' :: "500".data) = ("red-500".data) from rfl] at h
  rw [h]
  decide

/-- C4 counterexample: the suffix `gray-blue-500` has the form name-shade
with a purely numeric shade under the last-hyphen split (name `gray-blue`,
shade `500`), yet the code destructures `name.split('-')` into its first two
segments, takes `blue` as the shade (non-numeric), and emits the display
name `Gray` — not the `Gray-blue (500)` the original claim requires.  Slug
and color are still the lowercased raw suffix and the trimmed raw value. -/
theorem color_last_hyphen_shade_cex :
    themeColorEntries none ("--color-gray-blue-500: #123456;".data)
      = [{ name := ("Gray".data), slug := ("gray-blue-500".data),
           color := ("#123456".data) }]
    ∧ ("Gray".data) ≠ ("Gray-blue (500)".data) := by
  exact ⟨by decide, by decide⟩

/-- C5 evaluation at the failing input: the source's
`const [colorName, shade] = name.split('-')` keeps only the first two
segments, so `--color-fancy-test-example` classifies with display name
`Fancy` — not the `Fancy (Test Example)` required by the claim and by the
repository's own tests — while single-segment suffixes like `primary`
correctly yield `Primary`. -/
theorem color_multi_hyphen_code_eval :
    themeColorEntries none
      ("--color-fancy-test-example: #123456; --color-primary: #000000;".data)
    = [{ name := ("Fancy".data), slug := ("fancy-test-example".data),
         color := ("#123456".data) },
       { name := ("Primary".data), slug := ("primary".data),
         color := ("#000000".data) }]
    ∧ ("Fancy".data) ≠ ("Fancy (Test Example)".data) := by
  exact ⟨by decide, by decide⟩

/-- The predicate `startsWithChars` is the initial-segment relation. -/
theorem startsWithChars_iff :
    ∀ (p l : List Char), startsWithChars p l = true ↔ ∃ r, l = p ++ r := by
  intro p
  induction p with
  | nil =>
    intro l
    simp [startsWithChars]
  | cons c cs ih =>
    intro l
    cases l with
    | nil =>
      simp [startsWithChars]
    | cons d ds =>
      simp only [startsWithChars, Bool.and_eq_true, decide_eq_true_eq, ih ds]
      constructor
      · rintro ⟨hcd, r, hr⟩
        exact ⟨r, by rw [hcd, hr]; rfl⟩
      · rintro ⟨r, hr⟩
        injection hr with h1 h2
        exact ⟨h1.symm, r, h2⟩

/-- The predicate `containsChars` is the substring relation (`String.prototype.includes`). -/
theorem containsChars_iff :
    ∀ (sub l : List Char), containsChars sub l = true ↔ ∃ a b, l = a ++ sub ++ b := by
  intro sub l
  induction l with
  | nil =>
    simp only [containsChars, startsWithChars_iff]
    constructor
    · rintro ⟨r, hr⟩
      exact ⟨[], r, by simp [hr.symm]⟩
    · rintro ⟨a, b, hab⟩
      cases a with
      | nil => exact ⟨b, by simpa using hab⟩
      | cons x xs => simp at hab
  | cons d ds ih =>
    simp only [containsChars, Bool.or_eq_true, startsWithChars_iff, ih]
    constructor
    · rintro (⟨r, hr⟩ | ⟨a, b, hab⟩)
      · exact ⟨[], r, by simpa using hr⟩
      · exact ⟨d :: a, b, by simp [hab]⟩
    · rintro ⟨a, b, hab⟩
      cases a with
      | nil =>
        left
        exact ⟨b, by simpa using hab⟩
      | cons x xs =>
        right
        injection hab with h1 h2
        exact ⟨xs, b, h2⟩

/-- C6: a font-family variable is dropped exactly when its suffix contains
one of the eight reserved substrings, and every kept entry has the raw
suffix as name (not capitalized), the lowercased suffix as slug, and the
(trimmed) raw value with every `'` and `"` character removed as font
family. -/
theorem font_family_classification (vars : List (List Char × List Char)) :
    fontFamilyEntriesFrom vars
      = (vars.filter
          (fun nv => !invalidFontProps.any (fun p => containsChars p nv.1))).map
          fontFamilyEntryOf
    ∧ (∀ nv : List Char × List Char,
        (invalidFontProps.any (fun p => containsChars p nv.1) = true)
          ↔ ∃ p ∈ invalidFontProps, ∃ a b, nv.1 = a ++ p ++ b)
    ∧ (∀ nv : List Char × List Char,
        (fontFamilyEntryOf nv).name = nv.1
        ∧ (fontFamilyEntryOf nv).slug = toLowerJS nv.1
        ∧ (fontFamilyEntryOf nv).fontFamily
            = nv.2.filter (fun c => !(c = '\'' || c = '"')))
    ∧ themeFontFamilyEntries
        ("--font-feature-settings: \"ss01\"; --font-inter: \"Inter\";".data)
      = [{ name := ("inter".data), slug := ("inter".data),
           fontFamily := ("Inter".data) }] := by
  refine ⟨rfl, ?_, fun nv => ⟨rfl, rfl, rfl⟩, by decide⟩
  intro nv
  rw [List.any_eq_true]
  constructor
  · rintro ⟨p, hp, hc⟩
    exact ⟨p, hp, (containsChars_iff p nv.1).mp hc⟩
  · rintro ⟨p, hp, hab⟩
    exact ⟨p, hp, (containsChars_iff p nv.1).mpr hab⟩

set_option maxRecDepth 10000 in
/-- C7 evaluation at the failing input: the source's font-size filter drops
only suffixes containing `line-height`; a `--text-shadow-xs` declaration is
kept as a font-size entry, contradicting the claim and the repository's own
tests (which require no `shadow` slug among font sizes). -/
theorem fontsize_shadow_code_eval :
    themeFontSizeEntries
      ("--text-shadow-xs: 0px 1px 1px #0003; --text-lg: 1.125rem;".data)
    = [{ name := ("shadow-xs".data), slug := ("shadow-xs".data),
         size := ("0px 1px 1px #0003".data) },
       { name := ("lg".data), slug := ("lg".data),
         size := ("1.125rem".data) }]
    ∧ ∃ e ∈ themeFontSizeEntries
        ("--text-shadow-xs: 0px 1px 1px #0003; --text-lg: 1.125rem;".data),
        containsChars ("shadow".data) e.slug = true := by
  refine ⟨by decide, ?_⟩
  refine ⟨{ name := ("shadow-xs".data), slug := ("shadow-xs".data),
            size := ("0px 1px 1px #0003".data) }, by decide, by decide⟩

set_option maxRecDepth 10000 in
/-- C8 evaluation at the claim's own example input: the source performs no
sorting, so the font-size entries come out in extraction order
(2.25rem first), not in the ascending order required by the claim and by
the repository's own tests. -/
theorem fontsize_order_code_eval :
    (themeFontSizeEntries ("--text-4xl: 2.25rem; --text-sm: 0.875rem; --text-base: 1rem; --text-xs: 0.75rem; --text-2xl: 1.5rem; --text-lg: 1.125rem;".data)).map FontSize.size
    = [("2.25rem".data), ("0.875rem".data), ("1rem".data), ("0.75rem".data),
       ("1.5rem".data), ("1.125rem".data)]
    ∧ (themeFontSizeEntries ("--text-4xl: 2.25rem; --text-sm: 0.875rem; --text-base: 1rem; --text-xs: 0.75rem; --text-2xl: 1.5rem; --text-lg: 1.125rem;".data)).map FontSize.size
    ≠ [("0.75rem".data), ("0.875rem".data), ("1rem".data), ("1.125rem".data),
       ("1.5rem".data), ("2.25rem".data)] := by
  exact ⟨by decide, by decide⟩

/-- C3: the merge is additive — for every base document and all lists of
newly generated entries, each enabled category array of the merged settings
is exactly the base array followed by the new entries, so no base entry is
removed or overwritten and no de-duplication is performed (a new entry is
appended even when an equal entry, or one with the same slug, already
exists). -/
theorem merge_is_additive (base : BaseSettings)
    (colorE : List ColorPalette) (famE : List FontFamily) (sizeE : List FontSize) :
    (buildSettings false false false base colorE famE sizeE).palette
      = some ((base.colorPalette.getD []) ++ colorE)
    ∧ (buildSettings false false false base colorE famE sizeE).fontFamilies
      = some ((base.fontFamilies.getD []) ++ famE)
    ∧ (buildSettings false false false base colorE famE sizeE).fontSizes
      = some ((base.fontSizes.getD []) ++ sizeE)
    ∧ (∀ e ∈ base.colorPalette.getD [], e ∈ (base.colorPalette.getD []) ++ colorE)
    ∧ (∀ e ∈ colorE, e ∈ (base.colorPalette.getD []) ++ colorE)
    ∧ ((base.colorPalette.getD []) ++ colorE).length
      = (base.colorPalette.getD []).length + colorE.length := by
  refine ⟨rfl, rfl, rfl, ?_, ?_, by simp⟩
  · intro e he
    simp [he]
  · intro e he
    simp [he]

/-- C9: when no theme block is found in the captured CSS (or no CSS content
was captured at all, both giving a falsy `themeContent`) and no legacy
Tailwind config was supplied, `generateBundle` returns before `emitFile` —
no output file is emitted, not even an empty settings structure. -/
theorem no_block_no_config_no_output (cssContent : Option (List Char))
    (h : themeContentOf cssContent = .ok none) :
    emitsOutput cssContent false = .ok false := by
  unfold emitsOutput
  rw [h]
  rfl

/-- C9 witness: CSS without any theme block, no legacy config. -/
theorem no_block_no_config_no_output_witness :
    themeContentOf (some ("body \x7b color: red; \x7d".data)) = .ok none
    ∧ emitsOutput (some ("body \x7b color: red; \x7d".data)) false = .ok false := by
  exact ⟨by decide,
    no_block_no_config_no_output (some ("body \x7b color: red; \x7d".data)) (by decide)⟩
